import Mathlib

/-!
Verification development for the `remote` Terraform provider
(`unlimitechcloud/terraform-provider-remote`).

The provider proxies resource lifecycle operations (create / read /
update / delete / diff / schema) to a remote AWS Lambda function.  This
file gives a shallow embedding of the provider's Go code: JSON values are
an inductive type, Go maps (`map[string]interface{}`) are association
lists, the Lambda transport is an oracle function, and each lifecycle
function is a pure Lean function mirroring the Go control flow.
-/

set_option maxHeartbeats 1000000

/-- JSON values as decoded by Go's `encoding/json` into `interface{}`.
Numbers are kept as their literal text (Go uses `float64`; the numeric
interpretation is never consulted by the provider, so the literal text is
a faithful representation for the merge / serialization logic). -/
inductive JSON where
  | null : JSON
  | bool : Bool → JSON
  | num : String → JSON
  | str : String → JSON
  | arr : List JSON → JSON
  | obj : List (String × JSON) → JSON

/-- Go objects `map[string]interface{}` are modelled as association lists
whose key order is the (abstracted) insertion order. -/
abbrev Obj := List (String × JSON)

/-- Lookup of a key in an object (Go map read). -/
def lookupJ : Obj → String → Option JSON
  | [], _ => none
  | (k, v) :: rest, key => if k = key then some v else lookupJ rest key

/-- Write of a key in an object (Go map write `dst[k] = v`): replaces the
existing binding of the key or appends a fresh one. -/
def setKey : Obj → String → JSON → Obj
  | [], key, v => [(key, v)]
  | (k, w) :: rest, key, v =>
    if k = key then (k, v) :: rest else (k, w) :: setKey rest key v

/-- Embedding of `deepMerge` (Go merges `src` into `dst`, mutating `dst`;
here the merged object is returned).  For each key of `src`, if both the
incoming value and the current value in `dst` are JSON objects they are
merged recursively, otherwise the incoming value overwrites. -/
def deepMerge : Obj → Obj → Obj
  | dst, [] => dst
  | dst, (k, JSON.obj s) :: rest =>
    match lookupJ dst k with
    | some (JSON.obj d) => deepMerge (setKey dst k (JSON.obj (deepMerge d s))) rest
    | _ => deepMerge (setKey dst k (JSON.obj s)) rest
  | dst, (k, v) :: rest => deepMerge (setKey dst k v) rest
termination_by _ src => sizeOf src
decreasing_by all_goals (simp_wf <;> omega)

/-- Character constants used by the JSON printer and parser (quote,
backslash, open brace, close brace). -/
def quoteC : Char := '\x22'

/-- Backslash character. -/
def backC : Char := '\x5c'

/-- Open-brace character. -/
def lbraceC : Char := '\x7b'

/-- Close-brace character. -/
def rbraceC : Char := '\x7d'

/-- Escaping of a single character inside a JSON string literal
(model of Go's `encoding/json` string encoder; only the two characters
that matter for round-tripping are escaped). -/
def escapeChar (c : Char) : List Char :=
  if c = quoteC ∨ c = backC then [backC, c] else [c]

/-- Escaping of a whole string body. -/
def escapeStr : List Char → List Char
  | [] => []
  | c :: cs => escapeChar c ++ escapeStr cs

mutual
/-- JSON serializer: model of Go's `json.Marshal` on decoded values
(no added whitespace, object fields in association-list order). -/
def printJ : JSON → List Char
  | JSON.null => ['n', 'u', 'l', 'l']
  | JSON.bool true => ['t', 'r', 'u', 'e']
  | JSON.bool false => ['f', 'a', 'l', 's', 'e']
  | JSON.num s => s.data
  | JSON.str s => quoteC :: escapeStr s.data ++ [quoteC]
  | JSON.arr l => '[' :: printElems l ++ [']']
  | JSON.obj l => lbraceC :: printFields l ++ [rbraceC]

/-- Comma-separated serialization of array elements. -/
def printElems : List JSON → List Char
  | [] => []
  | [v] => printJ v
  | v :: rest => printJ v ++ ',' :: printElems rest

/-- Comma-separated serialization of object fields. -/
def printFields : List (String × JSON) → List Char
  | [] => []
  | [(k, v)] => quoteC :: escapeStr k.data ++ [quoteC, ':'] ++ printJ v
  | (k, v) :: rest =>
    quoteC :: escapeStr k.data ++ [quoteC, ':'] ++ printJ v ++ ',' :: printFields rest
end

/-- Characters that may occur inside a JSON number literal. -/
def isNumChar (c : Char) : Bool :=
  c.isDigit || c = '-' || c = '+' || c = '.' || c = 'e' || c = 'E'

mutual
/-- Well-formedness of a JSON value for serialization purposes: every
number literal is non-empty, consists of number characters and starts
like a number.  (Strings are unrestricted: escaping handles them.) -/
def wfJ : JSON → Bool
  | JSON.null => true
  | JSON.bool _ => true
  | JSON.num s =>
    match s.data with
    | [] => false
    | c :: cs => (c.isDigit || c = '-') && (c :: cs).all isNumChar
  | JSON.str _ => true
  | JSON.arr l => wfE l
  | JSON.obj l => wfF l

/-- Well-formedness of array elements. -/
def wfE : List JSON → Bool
  | [] => true
  | v :: rest => wfJ v && wfE rest

/-- Well-formedness of object fields. -/
def wfF : List (String × JSON) → Bool
  | [] => true
  | (_, v) :: rest => wfJ v && wfF rest
end

/-- String-body parser: input is everything after an opening quote;
returns the decoded body and the input after the closing quote. -/
def parseStringBody : List Char → Option (List Char × List Char)
  | [] => none
  | c :: rest =>
    if c = quoteC then some ([], rest)
    else if c = backC then
      match rest with
      | [] => none
      | d :: rest2 =>
        match parseStringBody rest2 with
        | some (s, r) => some (d :: s, r)
        | none => none
    else
      match parseStringBody rest with
      | some (s, r) => some (c :: s, r)
      | none => none

mutual
/-- Fuel-indexed JSON value parser: model of Go's `json.Unmarshal` into
`interface{}` (on the whitespace-free fragment of JSON; the provider only
ever re-parses strings that were produced by `json.Marshal`).  Returns
the parsed value and the remaining input. -/
def parseVal : Nat → List Char → Option (JSON × List Char)
  | 0, _ => none
  | _ + 1, [] => none
  | fuel + 1, c :: rest =>
    if c.isDigit || c = '-' then
      match (c :: rest).takeWhile isNumChar with
      | [] => none
      | ds => some (JSON.num (String.mk ds), (c :: rest).dropWhile isNumChar)
    else if c = quoteC then
      match parseStringBody rest with
      | some (s, r) => some (JSON.str (String.mk s), r)
      | none => none
    else if c = lbraceC then
      match rest with
      | d :: r2 =>
        if d = rbraceC then some (JSON.obj [], r2)
        else
          match parseFields fuel rest with
          | some (fs, r3) => some (JSON.obj fs, r3)
          | none => none
      | [] => none
    else if c = '[' then
      match rest with
      | d :: r2 =>
        if d = ']' then some (JSON.arr [], r2)
        else
          match parseElems fuel rest with
          | some (es, r3) => some (JSON.arr es, r3)
          | none => none
      | [] => none
    else if c = 'n' then
      match rest with
      | c1 :: c2 :: c3 :: r =>
        if c1 = 'u' ∧ c2 = 'l' ∧ c3 = 'l' then some (JSON.null, r) else none
      | _ => none
    else if c = 't' then
      match rest with
      | c1 :: c2 :: c3 :: r =>
        if c1 = 'r' ∧ c2 = 'u' ∧ c3 = 'e' then some (JSON.bool true, r) else none
      | _ => none
    else if c = 'f' then
      match rest with
      | c1 :: c2 :: c3 :: c4 :: r =>
        if c1 = 'a' ∧ c2 = 'l' ∧ c3 = 's' ∧ c4 = 'e' then some (JSON.bool false, r) else none
      | _ => none
    else none

/-- Parser for the non-empty field list of an object, including the
closing brace. -/
def parseFields : Nat → List Char → Option (List (String × JSON) × List Char)
  | 0, _ => none
  | _ + 1, [] => none
  | fuel + 1, c :: rest =>
    if c = quoteC then
      match parseStringBody rest with
      | some (k, r2) =>
        match r2 with
        | d2 :: r3 =>
          if d2 = ':' then
            match parseVal fuel r3 with
            | some (v, r4) =>
              match r4 with
              | d :: r5 =>
                if d = ',' then
                  match parseFields fuel r5 with
                  | some (fs, r6) => some ((String.mk k, v) :: fs, r6)
                  | none => none
                else if d = rbraceC then some ([(String.mk k, v)], r5)
                else none
              | [] => none
            | none => none
          else none
        | [] => none
      | none => none
    else none

/-- Parser for the non-empty element list of an array, including the
closing bracket. -/
def parseElems : Nat → List Char → Option (List JSON × List Char)
  | 0, _ => none
  | fuel + 1, cs =>
    match parseVal fuel cs with
    | some (v, r) =>
      match r with
      | d :: r2 =>
        if d = ',' then
          match parseElems fuel r2 with
          | some (es, r3) => some (v :: es, r3)
          | none => none
        else if d = ']' then some ([v], r2)
        else none
      | [] => none
    | none => none
end

/-- Top-level JSON decoding of a string: the whole input must be consumed
(model of `json.Unmarshal` requiring a single complete JSON document). -/
def parseTop (s : String) : Option JSON :=
  match parseVal (s.length + 1) s.data with
  | some (v, []) => some v
  | _ => none

/-- Dynamic Terraform attribute values (`interface{}` as handed to the
provider by the plugin SDK): the string form, the list form (schema type
`TypeList` with string elements) and anything else. -/
inductive TFValue where
  | vnil : TFValue
  | vstr : String → TFValue
  | vlist : List TFValue → TFValue

/-- Embedding of `parseArgsJSON`: an array input merges all fragments
that are strings parsing as JSON objects, skipping the others with a
diagnostic; the legacy single-string input must parse as a JSON object or
the call fails; any other input type fails. -/
def parseArgsJSON : TFValue → Except String Obj
  | TFValue.vlist arr =>
    Except.ok (arr.foldl
      (fun acc el =>
        match el with
        | TFValue.vstr s =>
          match parseTop s with
          | some (JSON.obj m) => deepMerge acc m
          | _ => acc
        | _ => acc)
      [])
  | TFValue.vstr s =>
    match parseTop s with
    | some (JSON.obj m) => Except.ok m
    | _ => Except.error "failed to parse args as JSON object"
  | TFValue.vnil => Except.error "args must be either string or array of strings"

/-- Host-visible state of one `remote_resource` instance: the attributes
the provider reads and writes through the plugin SDK's `ResourceData`. -/
structure ResourceRecord where
  id : String
  args : TFValue
  result : List (String × String)
  store : String
  isNew : Bool

/-- Embedding of `getPreviousArgs`: recovers the previous arguments from
the persisted `args` attribute.  Mirrors the Go control flow: a new
resource yields an empty object; `GetOk` followed by a `string` type
assertion yields an empty object unless the attribute value is a
non-empty string; a parse failure also yields an empty object. -/
def getPreviousArgs (d : ResourceRecord) : Obj :=
  if d.isNew then []
  else
    match d.args with
    | TFValue.vstr s =>
      if s = "" then []
      else
        match parseArgsJSON (TFValue.vstr s) with
        | Except.ok m => m
        | Except.error _ => []
    | _ => []

/-- Embedding of `setStoreAsJSONString`: a nil store is persisted as the
empty string, any other store as its JSON serialization. -/
def setStoreAsJSONString : Option Obj → String
  | none => ""
  | some m => String.mk (printJ (JSON.obj m))

/-- Store decoding as performed at the start of each operation: the
`store` attribute is absent or empty (`GetOk` fails) or is parsed
best-effort, any failure yielding an empty object. -/
def decodeStoreAttr (s : String) : Obj :=
  if s = "" then []
  else
    match parseTop s with
    | some (JSON.obj m) => m
    | _ => []

/-- Request envelope sent to the Lambda (struct `lambdaPayload`). -/
structure Payload where
  action : String
  args : Obj
  state : Obj
  store : Obj
  planning : Bool

/-- Result of the raw Lambda invocation (the `lambda.InvokeOutput` as far
as the provider consults it): a transport-level failure, or a reply
carrying an optional function-error indicator and the raw payload text. -/
abbrev TransportResult := Except String (Option String × String)

/-- Transport oracle: what `client.Svc.Invoke` returns for a request. -/
abbrev Transport := Payload → TransportResult

/-- Parsed reply (struct `lambdaResponse`). -/
structure LambdaResponse where
  id : String
  result : Obj
  store : Option Obj
  replace : Bool
  reason : String

/-- Extraction of the `result` object from the decoded reply envelope:
an object is taken as is, a string is re-parsed (an empty object on
failure), anything else (including an absent field) is an empty object. -/
def extractResult (out : Obj) : Obj :=
  match lookupJ out "result" with
  | some (JSON.obj m) => m
  | some (JSON.str s) =>
    match parseTop s with
    | some (JSON.obj m) => m
    | _ => []
  | some _ => []
  | none => []

/-- Extraction of the `store` object from the decoded reply envelope:
absent stays nil, an object is taken as is, a string is re-parsed
(remaining nil on failure), anything else is an empty non-nil object. -/
def extractStore (out : Obj) : Option Obj :=
  match lookupJ out "store" with
  | none => none
  | some (JSON.obj m) => some m
  | some (JSON.str s) =>
    match parseTop s with
    | some (JSON.obj m) => some m
    | _ => none
  | some _ => some []

/-- Extraction of the response id: the `id` string field of the parsed
`result` object, or the empty string when absent or not a string. -/
def extractId (resultVal : Obj) : String :=
  match lookupJ resultVal "id" with
  | some (JSON.str s) => s
  | _ => ""

/-- Assembly of the `lambdaResponse` from a decoded reply envelope
(the tail of `invokeLambda` after a successful unmarshal). -/
def buildResponse (out : Obj) : LambdaResponse :=
  { id := extractId (extractResult out)
    result := extractResult out
    store := extractStore out
    replace := (match lookupJ out "replace" with
      | some (JSON.bool b) => b
      | _ => false)
    reason := (match lookupJ out "reason" with
      | some (JSON.str s) => s
      | _ => "") }

/-- Embedding of `invokeLambda`: marshals the payload (cannot fail in the
model), performs the transport call, fails on a transport error or a
function-level error, decodes the reply as a JSON object (failure is
fatal) and assembles the `lambdaResponse` from the envelope fields. -/
def invokeLambda (tr : Transport) (p : Payload) : Except String LambdaResponse :=
  match tr p with
  | Except.error e => Except.error e
  | Except.ok (some _, raw) => Except.error ("lambda error: " ++ raw)
  | Except.ok (none, raw) =>
    match parseTop raw with
    | some (JSON.obj out) => Except.ok (buildResponse out)
    | _ => Except.error "failed to unmarshal lambda response"

/-- Schema pair fetched from the Lambda (struct `lambdaSchemaResponse`);
`none` models a nil Go map. -/
structure SchemaResp where
  request : Option Obj
  response : Option Obj

/-- Per-provider-configuration mutable state guarded by `sync.Once`
(fields `once`, `schemas`, `schemaErr` of `remoteClient`). -/
structure ClientState where
  done : Bool
  schemas : Option SchemaResp
  schemaErr : Option String

/-- Reading an object-valued field out of the schema reply's `result`
(model of re-marshalling `resp.Result` and unmarshalling it into
`lambdaSchemaResponse`). -/
def objField (m : Obj) (k : String) : Option Obj :=
  match lookupJ m k with
  | some (JSON.obj o) => some o
  | _ => none

/-- Request payload of the one-time `schema` action
(`lambdaPayload{Action: "schema"}`). -/
def schemaPayload : Payload :=
  { action := "schema", args := [], state := [], store := [], planning := false }

/-- Embedding of `(c *remoteClient).getSchemas`: on the first call the
`schema` action is invoked once and either the decoded pair or the error
is cached; every later call returns the cached outcome without touching
the transport.  The returned list holds the payloads sent (empty when the
cache was already settled). -/
def getSchemas (tr : Transport) (cst : ClientState) :
    (Option SchemaResp × Option String) × ClientState × List Payload :=
  if cst.done then ((cst.schemas, cst.schemaErr), cst, [])
  else
    match invokeLambda tr schemaPayload with
    | Except.error e =>
      ((none, some e), { done := true, schemas := none, schemaErr := some e }, [schemaPayload])
    | Except.ok resp =>
      let sr : SchemaResp :=
        { request := objField resp.result "request", response := objField resp.result "response" }
      ((some sr, none), { done := true, schemas := some sr, schemaErr := none }, [schemaPayload])

/-- Iterated `getSchemas` calls against the same client, each with its
own transport oracle; returns the observed results, the final state and
all schema payloads that were actually sent. -/
def runGetSchemas : ClientState → List Transport →
    List (Option SchemaResp × Option String) × ClientState × List Payload
  | cst, [] => ([], cst, [])
  | cst, tr :: trs =>
    match getSchemas tr cst with
    | (res, cst2, sent) =>
      match runGetSchemas cst2 trs with
      | (results, cstF, sentRest) => (res :: results, cstF, sent ++ sentRest)

/-- External JSON-Schema validator (the `gojsonschema` library): given a
schema object and a document, returns the list of violations (empty means
the document is valid). -/
abbrev Validator := Obj → Obj → List String

/-- Embedding of `validateWithSchema`: validation is skipped when the
schema is nil or empty; otherwise the external validator runs and all
violations are aggregated into one error message. -/
def validateWithSchema (gjs : Validator) (schema : Option Obj) (doc : Obj) (side : String) :
    Option String :=
  match schema with
  | none => none
  | some [] => none
  | some s =>
    match gjs s doc with
    | [] => none
    | errs =>
      some (side ++ " failed schema validation:\n" ++
        String.join (errs.map (fun e => "- " ++ e ++ "\n")))

/-- Go's `%v` formatting of a decoded JSON value, as used for non-string
result values (composite and null formatting abbreviated; no claim
observes those strings). -/
def goFormat : JSON → String
  | JSON.null => "<nil>"
  | JSON.bool true => "true"
  | JSON.bool false => "false"
  | JSON.num s => s
  | JSON.str s => s
  | JSON.arr l => String.mk ('[' :: printElems l ++ [']'])
  | JSON.obj l => String.mk (lbraceC :: printFields l ++ [rbraceC])

/-- Embedding of `mapStringValues`: string values pass through, every
other value is formatted as text. -/
def mapStringValues (input : Obj) : List (String × String) :=
  input.map (fun kv =>
    match kv with
    | (k, JSON.str s) => (k, s)
    | (k, v) => (k, goFormat v))

/-- Outcome of a lifecycle operation: the diagnostics (an error message,
or `none` for success), the resource record as left by the operation, the
client state after any schema fetch, and every payload sent to the
Lambda (schema fetch included). -/
abbrev OpResult := Option String × ResourceRecord × ClientState × List Payload

/-- Embedding of `resourceRemoteCreate`: merge args, decode the store,
use an empty previous state, fetch schemas, validate the request, invoke
`create`, require a non-empty id, validate the response, then persist id,
stringified result and serialized store. -/
def resourceRemoteCreate (tr : Transport) (gjs : Validator) (planning : Bool)
    (cst : ClientState) (d : ResourceRecord) : OpResult :=
  match parseArgsJSON d.args with
  | Except.error e => (some ("create: " ++ e), d, cst, [])
  | Except.ok args =>
    let store := decodeStoreAttr d.store
    let state : Obj := []
    match getSchemas tr cst with
    | ((_, some e), cst2, t1) => (some e, d, cst2, t1)
    | ((so, none), cst2, t1) =>
      let sp := so.getD { request := none, response := none }
      match validateWithSchema gjs sp.request args "request" with
      | some msg => (some msg, d, cst2, t1)
      | none =>
        let p : Payload :=
          { action := "create", args := args, state := state, store := store, planning := planning }
        match invokeLambda tr p with
        | Except.error e => (some e, d, cst2, t1 ++ [p])
        | Except.ok res =>
          if res.id = "" then
            (some "lambda create response missing required 'id' field or returned empty id",
              d, cst2, t1 ++ [p])
          else
            match validateWithSchema gjs sp.response res.result "response" with
            | some msg => (some msg, d, cst2, t1 ++ [p])
            | none =>
              (none,
                { d with id := res.id, result := mapStringValues res.result,
                         store := setStoreAsJSONString res.store },
                cst2, t1 ++ [p])

/-- Embedding of `resourceRemoteRead`: merge args, decode the store,
recover previous args, fetch schemas, validate the request, invoke
`read`; an empty returned id clears the resource id and reports success,
otherwise the response is validated and id, result and store persisted. -/
def resourceRemoteRead (tr : Transport) (gjs : Validator) (planning : Bool)
    (cst : ClientState) (d : ResourceRecord) : OpResult :=
  match parseArgsJSON d.args with
  | Except.error e => (some ("read: " ++ e), d, cst, [])
  | Except.ok args =>
    let store := decodeStoreAttr d.store
    let state := getPreviousArgs d
    match getSchemas tr cst with
    | ((_, some e), cst2, t1) => (some e, d, cst2, t1)
    | ((so, none), cst2, t1) =>
      let sp := so.getD { request := none, response := none }
      match validateWithSchema gjs sp.request args "request" with
      | some msg => (some msg, d, cst2, t1)
      | none =>
        let p : Payload :=
          { action := "read", args := args, state := state, store := store, planning := planning }
        match invokeLambda tr p with
        | Except.error e => (some ("remote read failed: " ++ e), d, cst2, t1 ++ [p])
        | Except.ok res =>
          if res.id = "" then (none, { d with id := "" }, cst2, t1 ++ [p])
          else
            match validateWithSchema gjs sp.response res.result "response" with
            | some msg => (some msg, d, cst2, t1 ++ [p])
            | none =>
              (none,
                { d with id := res.id, result := mapStringValues res.result,
                         store := setStoreAsJSONString res.store },
                cst2, t1 ++ [p])

/-- Embedding of `resourceRemoteUpdate`: like create but with the
recovered previous args as state; state is mutated only after the id
check and the response validation both pass. -/
def resourceRemoteUpdate (tr : Transport) (gjs : Validator) (planning : Bool)
    (cst : ClientState) (d : ResourceRecord) : OpResult :=
  match parseArgsJSON d.args with
  | Except.error e => (some ("update: " ++ e), d, cst, [])
  | Except.ok args =>
    let store := decodeStoreAttr d.store
    let state := getPreviousArgs d
    match getSchemas tr cst with
    | ((_, some e), cst2, t1) => (some e, d, cst2, t1)
    | ((so, none), cst2, t1) =>
      let sp := so.getD { request := none, response := none }
      match validateWithSchema gjs sp.request args "request" with
      | some msg => (some msg, d, cst2, t1)
      | none =>
        let p : Payload :=
          { action := "update", args := args, state := state, store := store, planning := planning }
        match invokeLambda tr p with
        | Except.error e => (some e, d, cst2, t1 ++ [p])
        | Except.ok res =>
          if res.id = "" then
            (some "lambda update response missing required 'id' field or returned empty id",
              d, cst2, t1 ++ [p])
          else
            match validateWithSchema gjs sp.response res.result "response" with
            | some msg => (some msg, d, cst2, t1 ++ [p])
            | none =>
              (none,
                { d with id := res.id, result := mapStringValues res.result,
                         store := setStoreAsJSONString res.store },
                cst2, t1 ++ [p])

/-- Embedding of `resourceRemoteDelete`: merge args, decode the store,
recover previous args, fetch schemas, validate the request (the response
is never validated), invoke `delete`; an empty returned id clears the
resource id, a non-empty one is persisted together with result and
store. -/
def resourceRemoteDelete (tr : Transport) (gjs : Validator) (planning : Bool)
    (cst : ClientState) (d : ResourceRecord) : OpResult :=
  match parseArgsJSON d.args with
  | Except.error e => (some ("delete: " ++ e), d, cst, [])
  | Except.ok args =>
    let store := decodeStoreAttr d.store
    let state := getPreviousArgs d
    match getSchemas tr cst with
    | ((_, some e), cst2, t1) => (some e, d, cst2, t1)
    | ((so, none), cst2, t1) =>
      let sp := so.getD { request := none, response := none }
      match validateWithSchema gjs sp.request args "request" with
      | some msg => (some msg, d, cst2, t1)
      | none =>
        let p : Payload :=
          { action := "delete", args := args, state := state, store := store, planning := planning }
        match invokeLambda tr p with
        | Except.error e => (some e, d, cst2, t1 ++ [p])
        | Except.ok res =>
          if res.id = "" then (none, { d with id := "" }, cst2, t1 ++ [p])
          else
            (none,
              { d with id := res.id, result := mapStringValues res.result,
                       store := setStoreAsJSONString res.store },
              cst2, t1 ++ [p])

/-- Embedding of the `CustomizeDiff` closure of `resourceRemote`: parses
the proposed args, decodes the store, reads the old args value through a
`string` type assertion; when the result is absent, empty or `"\x7b\x7d"`
the change counts as a create and no Lambda call happens; otherwise the
old args are parsed and the `diff` action invoked with the previous args
as state, forcing replacement when the reply requests it.  Returns
whether `ForceNew` was applied, plus the payloads sent. -/
def customizeDiff (tr : Transport) (argsVal : TFValue) (storeStr : String)
    (old : TFValue) : Except String Bool × List Payload :=
  match parseArgsJSON argsVal with
  | Except.error e => (Except.error ("CustomizeDiff: " ++ e), [])
  | Except.ok args =>
    let store := decodeStoreAttr storeStr
    match old with
    | TFValue.vstr oldArgsStr =>
      if oldArgsStr = "" ∨ oldArgsStr = String.mk [lbraceC, rbraceC] then (Except.ok false, [])
      else
        match parseArgsJSON (TFValue.vstr oldArgsStr) with
        | Except.error e => (Except.error ("CustomizeDiff: old args not valid JSON: " ++ e), [])
        | Except.ok oldArgs =>
          let p : Payload :=
            { action := "diff", args := args, state := oldArgs, store := store, planning := false }
          match invokeLambda tr p with
          | Except.error e => (Except.error e, [p])
          | Except.ok res =>
            if res.replace then (Except.ok true, [p]) else (Except.ok false, [p])
    | _ => (Except.ok false, [])

/-- Merge of two optional values as seen at one key: nothing incoming
keeps the accumulator, two objects merge recursively, anything else
incoming replaces. -/
def mergeLookup : Option JSON → Option JSON → Option JSON
  | a, none => a
  | some (JSON.obj d), some (JSON.obj s) => some (JSON.obj (deepMerge d s))
  | _, some v => some v

/-- Effect of `deepMerge` on a single incoming binding. -/
def mergeEntry (dst : Obj) (k : String) (v : JSON) : Obj :=
  match v, lookupJ dst k with
  | JSON.obj s, some (JSON.obj d) => setKey dst k (JSON.obj (deepMerge d s))
  | _, _ => setKey dst k v

theorem deepMerge_nil (dst : Obj) : deepMerge dst [] = dst := by
  simp [deepMerge]

theorem deepMerge_cons (dst : Obj) (k : String) (v : JSON) (rest : Obj) :
    deepMerge dst ((k, v) :: rest) = deepMerge (mergeEntry dst k v) rest := by
  cases v with
  | obj s =>
    cases h : lookupJ dst k with
    | none => simp [deepMerge, mergeEntry, h]
    | some w =>
      cases w <;> simp [deepMerge, mergeEntry, h]
  | null => simp [deepMerge, mergeEntry]
  | bool b => simp [deepMerge, mergeEntry]
  | num s => simp [deepMerge, mergeEntry]
  | str s => simp [deepMerge, mergeEntry]
  | arr l => simp [deepMerge, mergeEntry]

theorem lookupJ_setKey_self (dst : Obj) (k : String) (v : JSON) :
    lookupJ (setKey dst k v) k = some v := by
  induction dst with
  | nil => simp [setKey, lookupJ]
  | cons kv rest ih =>
    obtain ⟨k0, w⟩ := kv
    by_cases h : k0 = k
    · simp [setKey, lookupJ, h]
    · simp [setKey, lookupJ, h, ih]

theorem lookupJ_setKey_ne (dst : Obj) (k key : String) (v : JSON) (h : key ≠ k) :
    lookupJ (setKey dst k v) key = lookupJ dst key := by
  induction dst with
  | nil => simp [setKey, lookupJ, Ne.symm h]
  | cons kv rest ih =>
    obtain ⟨k0, w⟩ := kv
    by_cases h0 : k0 = k
    · subst h0
      simp [setKey, lookupJ, Ne.symm h]
    · by_cases h1 : k0 = key
      · simp [setKey, lookupJ, h0, h1, h]
      · simp [setKey, lookupJ, h0, h1, ih]

theorem lookupJ_mergeEntry_self (dst : Obj) (k : String) (v : JSON) :
    lookupJ (mergeEntry dst k v) k = mergeLookup (lookupJ dst k) (some v) := by
  cases v with
  | obj s =>
    cases h : lookupJ dst k with
    | none => simp [mergeEntry, mergeLookup, h, lookupJ_setKey_self]
    | some w =>
      cases w <;> simp [mergeEntry, mergeLookup, h, lookupJ_setKey_self]
  | null => simp [mergeEntry, mergeLookup, lookupJ_setKey_self]
  | bool b => simp [mergeEntry, mergeLookup, lookupJ_setKey_self]
  | num s => simp [mergeEntry, mergeLookup, lookupJ_setKey_self]
  | str s => simp [mergeEntry, mergeLookup, lookupJ_setKey_self]
  | arr l => simp [mergeEntry, mergeLookup, lookupJ_setKey_self]

theorem lookupJ_mergeEntry_ne (dst : Obj) (k key : String) (v : JSON) (h : key ≠ k) :
    lookupJ (mergeEntry dst k v) key = lookupJ dst key := by
  cases v with
  | obj s =>
    cases h0 : lookupJ dst k with
    | none => simp [mergeEntry, h0, lookupJ_setKey_ne _ _ _ _ h]
    | some w =>
      cases w <;> simp [mergeEntry, h0, lookupJ_setKey_ne _ _ _ _ h]
  | null => simp [mergeEntry, lookupJ_setKey_ne _ _ _ _ h]
  | bool b => simp [mergeEntry, lookupJ_setKey_ne _ _ _ _ h]
  | num s => simp [mergeEntry, lookupJ_setKey_ne _ _ _ _ h]
  | str s => simp [mergeEntry, lookupJ_setKey_ne _ _ _ _ h]
  | arr l => simp [mergeEntry, lookupJ_setKey_ne _ _ _ _ h]

theorem lookupJ_eq_none_of_not_mem (dst : Obj) (k : String)
    (h : k ∉ dst.map Prod.fst) : lookupJ dst k = none := by
  induction dst with
  | nil => simp [lookupJ]
  | cons kv rest ih =>
    obtain ⟨k0, w⟩ := kv
    simp only [List.map_cons, List.mem_cons] at h
    push_neg at h
    simp [lookupJ, Ne.symm h.1, ih h.2]

theorem deepMerge_lookup (src : Obj) : ∀ (dst : Obj) (k : String),
    (src.map Prod.fst).Nodup →
    lookupJ (deepMerge dst src) k = mergeLookup (lookupJ dst k) (lookupJ src k) := by
  induction src with
  | nil =>
    intro dst k _
    simp [deepMerge_nil, lookupJ, mergeLookup]
  | cons kv rest ih =>
    obtain ⟨k0, v0⟩ := kv
    intro dst k hnd
    simp only [List.map_cons, List.nodup_cons] at hnd
    rw [deepMerge_cons, ih _ _ hnd.2]
    by_cases hk : k = k0
    · subst hk
      rw [lookupJ_eq_none_of_not_mem rest k hnd.1, lookupJ_mergeEntry_self]
      simp [lookupJ, mergeLookup]
    · rw [lookupJ_mergeEntry_ne _ _ _ _ hk]
      simp [lookupJ, Ne.symm hk]

/-- C5: merging an ordered sequence of JSON-object fragments folds left
to right and is deterministic; at a key present in both the accumulator
and the incoming fragment two objects merge recursively and any other
incoming value replaces; the spec's example
`merge([{"a":1,"b":{"x":1}}, {"b":{"y":2}}])` yields
`{"a":1,"b":{"x":1,"y":2}}`. -/
theorem deepMerge_fold_spec :
    (∀ (dst src : Obj) (k : String), (src.map Prod.fst).Nodup →
      lookupJ (deepMerge dst src) k = mergeLookup (lookupJ dst k) (lookupJ src k)) ∧
    parseArgsJSON (TFValue.vlist [TFValue.vstr "\x7b\"a\":1,\"b\":\x7b\"x\":1\x7d\x7d",
        TFValue.vstr "\x7b\"b\":\x7b\"y\":2\x7d\x7d"]) =
      Except.ok [("a", JSON.num "1"),
        ("b", JSON.obj [("x", JSON.num "1"), ("y", JSON.num "2")])] := by
  constructor
  · intro dst src k h
    exact deepMerge_lookup src dst k h
  · have h1 : parseTop "\x7b\"a\":1,\"b\":\x7b\"x\":1\x7d\x7d" =
        some (JSON.obj [("a", JSON.num "1"), ("b", JSON.obj [("x", JSON.num "1")])]) := rfl
    have h2 : parseTop "\x7b\"b\":\x7b\"y\":2\x7d\x7d" =
        some (JSON.obj [("b", JSON.obj [("y", JSON.num "2")])]) := rfl
    simp [parseArgsJSON, h1, h2, deepMerge, lookupJ, setKey]

/-- Witness for C5: the key-collision characterization applied at a
concrete accumulator, fragment and key. -/
theorem deepMerge_fold_spec_witness :
    ((([("a", JSON.num "2")] : Obj).map Prod.fst).Nodup ∧
      lookupJ (deepMerge [("a", JSON.num "1")] [("a", JSON.num "2")]) "a" =
        mergeLookup (lookupJ [("a", JSON.num "1")] "a") (lookupJ [("a", JSON.num "2")] "a")) :=
  ⟨by simp, deepMerge_fold_spec.1 [("a", JSON.num "1")] [("a", JSON.num "2")] "a" (by simp)⟩

theorem getSchemas_done_eq (tr : Transport) (cst : ClientState) (h : cst.done = true) :
    getSchemas tr cst = ((cst.schemas, cst.schemaErr), cst, []) := by
  simp [getSchemas, h]

theorem runGetSchemas_done (trs : List Transport) (cst : ClientState) (h : cst.done = true) :
    runGetSchemas cst trs = (trs.map (fun _ => (cst.schemas, cst.schemaErr)), cst, []) := by
  induction trs with
  | nil => simp [runGetSchemas]
  | cons tr trs ih => simp [runGetSchemas, getSchemas_done_eq tr cst h, ih]

theorem getSchemas_fresh_shape (tr : Transport) :
    ((getSchemas tr ⟨false, none, none⟩).2.2).length = 1 ∧
    (getSchemas tr ⟨false, none, none⟩).2.1.done = true ∧
    (getSchemas tr ⟨false, none, none⟩).1 =
      ((getSchemas tr ⟨false, none, none⟩).2.1.schemas,
        (getSchemas tr ⟨false, none, none⟩).2.1.schemaErr) := by
  simp only [getSchemas]
  cases h : invokeLambda tr schemaPayload <;> simp [h]

/-- C4: over any sequence of `getSchemas` calls against one fresh
provider-configuration instance, the remote `schema` fetch is attempted
exactly once (so at most once), and every call — the initiator and all
later ones — observes the very result of that single attempt, cached
error included; no later call touches the transport. -/
theorem getSchemas_attempt_once (tr : Transport) (trs : List Transport) :
    (runGetSchemas ⟨false, none, none⟩ (tr :: trs)).2.2.length = 1 ∧
    ∀ r ∈ (runGetSchemas ⟨false, none, none⟩ (tr :: trs)).1,
      r = (getSchemas tr ⟨false, none, none⟩).1 := by
  have h1 := getSchemas_fresh_shape tr
  rcases hg : getSchemas tr ⟨false, none, none⟩ with ⟨res, cst2, sent⟩
  rw [hg] at h1
  simp only at h1
  obtain ⟨hs, hd, hr⟩ := h1
  have hrun := runGetSchemas_done trs cst2 hd
  simp only [runGetSchemas, hg, hrun]
  constructor
  · simp [hs]
  · intro r hmem
    simp only [List.mem_cons, List.mem_map] at hmem
    rcases hmem with h | ⟨_, _, h⟩
    · rw [h, hr]
    · rw [← h, hr]

/-- Witness for C4: a concrete two-call run against a failing transport;
the single attempt's error is cached and returned to both calls. -/
theorem getSchemas_attempt_once_witness :
    (runGetSchemas ⟨false, none, none⟩
      [fun _ => Except.error "boom", fun _ => Except.error "boom"]).2.2.length = 1 ∧
    ∀ r ∈ (runGetSchemas ⟨false, none, none⟩
      [fun _ => Except.error "boom", fun _ => Except.error "boom"]).1,
      r = (getSchemas (fun _ => Except.error "boom") ⟨false, none, none⟩).1 :=
  getSchemas_attempt_once (fun _ => Except.error "boom") [fun _ => Except.error "boom"]

/-- C10: every remote-invocation failure is fatal — a transport error is
returned as is, a non-empty function-level error indicator turns into an
error, and a reply that does not decode as a JSON object is an error; in
all three cases no `lambdaResponse` is produced, so no partial reply
content can be used by any lifecycle operation.  The final conjunct shows
the operation-level consequence on `read`: a failing invocation aborts
the operation with an error and the resource record is untouched. -/
theorem invokeLambda_failures_fatal (tr : Transport) (p : Payload) :
    (∀ e, tr p = Except.error e → invokeLambda tr p = Except.error e) ∧
    (∀ fe raw, tr p = Except.ok (some fe, raw) →
      invokeLambda tr p = Except.error ("lambda error: " ++ raw)) ∧
    (∀ raw, tr p = Except.ok (none, raw) →
      (∀ out, parseTop raw ≠ some (JSON.obj out)) →
      invokeLambda tr p = Except.error "failed to unmarshal lambda response") ∧
    (∀ (gjs : Validator) (planning : Bool) (cst : ClientState) (d : ResourceRecord)
      (args : Obj) (sp : SchemaResp) (e : String),
      cst.done = true → cst.schemas = some sp → cst.schemaErr = none → sp.request = none →
      parseArgsJSON d.args = Except.ok args →
      invokeLambda tr
        { action := "read", args := args, state := getPreviousArgs d,
          store := decodeStoreAttr d.store, planning := planning } = Except.error e →
      resourceRemoteRead tr gjs planning cst d =
        (some ("remote read failed: " ++ e), d, cst,
          [{ action := "read", args := args, state := getPreviousArgs d,
             store := decodeStoreAttr d.store, planning := planning }])) := by
  refine ⟨?_, ?_, ?_, ?_⟩
  · intro e h
    simp [invokeLambda, h]
  · intro fe raw h
    simp [invokeLambda, h]
  · intro raw h hdec
    cases hp : parseTop raw with
    | none => simp [invokeLambda, h, hp]
    | some v =>
      cases v with
      | obj out => exact absurd hp (hdec out)
      | null => simp [invokeLambda, h, hp]
      | bool b => simp [invokeLambda, h, hp]
      | num s => simp [invokeLambda, h, hp]
      | str s => simp [invokeLambda, h, hp]
      | arr l => simp [invokeLambda, h, hp]
  · intro gjs planning cst d args sp e hdone hs he hreq hargs hinv
    simp [resourceRemoteRead, hargs, getSchemas_done_eq tr cst hdone, hs, he,
      validateWithSchema, hreq, hinv]

/-- Witness for C10: the three failure modes at concrete transports — a
transport error, a function-level error, a reply that is not JSON — and a
concrete failing `read` left with its record unchanged. -/
theorem invokeLambda_failures_fatal_witness :
    invokeLambda (fun _ => Except.error "boom") schemaPayload = Except.error "boom" ∧
    invokeLambda (fun _ => Except.ok (some "Unhandled", "err")) schemaPayload =
      Except.error ("lambda error: " ++ "err") ∧
    invokeLambda (fun _ => Except.ok (none, "not json")) schemaPayload =
      Except.error "failed to unmarshal lambda response" ∧
    resourceRemoteRead (fun _ => Except.error "boom") (fun _ _ => []) false
      ⟨true, some ⟨none, none⟩, none⟩
      ⟨"abc", TFValue.vstr "\x7b\"a\":1\x7d", [("k", "v")], "", false⟩ =
    (some ("remote read failed: " ++ "boom"),
      ⟨"abc", TFValue.vstr "\x7b\"a\":1\x7d", [("k", "v")], "", false⟩,
      ⟨true, some ⟨none, none⟩, none⟩,
      [{ action := "read", args := [("a", JSON.num "1")], state := [("a", JSON.num "1")],
         store := [], planning := false }]) :=
  ⟨(invokeLambda_failures_fatal (fun _ => Except.error "boom") schemaPayload).1 "boom" rfl,
   (invokeLambda_failures_fatal (fun _ => Except.ok (some "Unhandled", "err"))
      schemaPayload).2.1 "Unhandled" "err" rfl,
   (invokeLambda_failures_fatal (fun _ => Except.ok (none, "not json")) schemaPayload).2.2.1
      "not json" rfl
      (by
        intro out h
        rw [show parseTop "not json" = none from rfl] at h
        exact Option.noConfusion h),
   (invokeLambda_failures_fatal (fun _ => Except.error "boom")
      { action := "read", args := [("a", JSON.num "1")], state := [("a", JSON.num "1")],
        store := [], planning := false }).2.2.2 (fun _ _ => []) false
      ⟨true, some ⟨none, none⟩, none⟩
      ⟨"abc", TFValue.vstr "\x7b\"a\":1\x7d", [("k", "v")], "", false⟩
      [("a", JSON.num "1")] ⟨none, none⟩ "boom" rfl rfl rfl rfl rfl rfl⟩

/-- C1 counterexample: a reply whose envelope carries the top-level id
`"top"` while its `result` object carries the id `"inner"` parses to a
Lifecycle Response whose id is `"inner"`, not the envelope's top-level
id — the claim that the parsed id equals the envelope's top-level `id`
field is false of the code. -/
theorem invokeLambda_envelope_id_counterexample :
    invokeLambda
        (fun _ => Except.ok (none, "\x7b\"id\":\"top\",\"result\":\x7b\"id\":\"inner\"\x7d\x7d"))
        schemaPayload =
      Except.ok
        { id := "inner", result := [("id", JSON.str "inner")], store := none,
          replace := false, reason := "" } ∧
    "inner" ≠ "top" :=
  ⟨rfl, by decide⟩

/-- C1 as amended: for every invocation whose reply decodes as a JSON
object, the id of the parsed Lifecycle Response is the `id` string field
of the reply's `result` object (empty when absent or not a string); it is
determined by the `result` field alone, so the envelope's top-level `id`
is ignored. -/
theorem invokeLambda_id_from_result :
    (∀ (tr : Transport) (p : Payload) (raw : String) (out : Obj),
      tr p = Except.ok (none, raw) → parseTop raw = some (JSON.obj out) →
      ∃ r, invokeLambda tr p = Except.ok r ∧ r.id = extractId (extractResult out)) ∧
    (∀ out1 out2 : Obj, lookupJ out1 "result" = lookupJ out2 "result" →
      extractId (extractResult out1) = extractId (extractResult out2)) := by
  constructor
  · intro tr p raw out h1 h2
    refine ⟨buildResponse out, ?_, rfl⟩
    simp [invokeLambda, h1, h2]
  · intro out1 out2 h
    simp [extractResult, h]

/-- Witness for C1: the amended statement applied at the counterexample
reply; the parsed id is the one inside `result`. -/
theorem invokeLambda_id_from_result_witness :
    ∃ r, invokeLambda
        (fun _ => Except.ok (none, "\x7b\"id\":\"top\",\"result\":\x7b\"id\":\"inner\"\x7d\x7d"))
        schemaPayload = Except.ok r ∧
      r.id = extractId (extractResult
        [("id", JSON.str "top"), ("result", JSON.obj [("id", JSON.str "inner")])]) :=
  invokeLambda_id_from_result.1
    (fun _ => Except.ok (none, "\x7b\"id\":\"top\",\"result\":\x7b\"id\":\"inner\"\x7d\x7d"))
    schemaPayload "\x7b\"id\":\"top\",\"result\":\x7b\"id\":\"inner\"\x7d\x7d"
    [("id", JSON.str "top"), ("result", JSON.obj [("id", JSON.str "inner")])] rfl rfl

/-- C8: a create whose remote invocation succeeds but yields an empty
extracted id fails with the missing-id error and leaves the resource
record exactly as it was — no id assigned, no result or store
persisted. -/
theorem resourceRemoteCreate_empty_id_fatal (tr : Transport) (gjs : Validator)
    (planning : Bool) (cst : ClientState) (d : ResourceRecord) (args : Obj)
    (sp : SchemaResp) (res : LambdaResponse)
    (hdone : cst.done = true) (hs : cst.schemas = some sp) (he : cst.schemaErr = none)
    (hreq : sp.request = none)
    (hargs : parseArgsJSON d.args = Except.ok args)
    (hinv : invokeLambda tr
      { action := "create", args := args, state := [],
        store := decodeStoreAttr d.store, planning := planning } = Except.ok res)
    (hid : res.id = "") :
    resourceRemoteCreate tr gjs planning cst d =
      (some "lambda create response missing required 'id' field or returned empty id", d, cst,
        [{ action := "create", args := args, state := [],
           store := decodeStoreAttr d.store, planning := planning }]) := by
  simp [resourceRemoteCreate, hargs, getSchemas_done_eq tr cst hdone, hs, he,
    validateWithSchema, hreq, hinv, hid]

/-- Witness for C8: a concrete create against a Lambda whose reply has a
`result` object without an id; the operation errors and the fresh record
is untouched. -/
theorem resourceRemoteCreate_empty_id_fatal_witness :
    resourceRemoteCreate (fun _ => Except.ok (none, "\x7b\"result\":\x7b\"name\":\"n\"\x7d\x7d"))
      (fun _ _ => []) false ⟨true, some ⟨none, none⟩, none⟩
      ⟨"", TFValue.vstr "\x7b\"a\":1\x7d", [], "", true⟩ =
    (some "lambda create response missing required 'id' field or returned empty id",
      ⟨"", TFValue.vstr "\x7b\"a\":1\x7d", [], "", true⟩, ⟨true, some ⟨none, none⟩, none⟩,
      [{ action := "create", args := [("a", JSON.num "1")], state := [], store := [],
         planning := false }]) :=
  resourceRemoteCreate_empty_id_fatal
    (fun _ => Except.ok (none, "\x7b\"result\":\x7b\"name\":\"n\"\x7d\x7d"))
    (fun _ _ => []) false ⟨true, some ⟨none, none⟩, none⟩
    ⟨"", TFValue.vstr "\x7b\"a\":1\x7d", [], "", true⟩
    [("a", JSON.num "1")] ⟨none, none⟩
    (buildResponse [("result", JSON.obj [("name", JSON.str "n")])])
    rfl rfl rfl rfl rfl rfl rfl

/-- C6 counterexample: a successful remote `delete` whose reply's result
object carries the non-empty id `"x"` leaves the operation successful but
the resource id set to `"x"` — the id is NOT cleared, refuting the claim
that the id is cleared regardless of the returned id. -/
theorem resourceRemoteDelete_id_not_cleared_counterexample :
    (resourceRemoteDelete (fun _ => Except.ok (none, "\x7b\"result\":\x7b\"id\":\"x\"\x7d\x7d"))
      (fun _ _ => ["rejected"]) false
      ⟨true, some ⟨none, some [("type", JSON.str "object")]⟩, none⟩
      ⟨"old", TFValue.vstr "\x7b\"a\":1\x7d", [("k", "v")], "", false⟩).1 = none ∧
    (resourceRemoteDelete (fun _ => Except.ok (none, "\x7b\"result\":\x7b\"id\":\"x\"\x7d\x7d"))
      (fun _ _ => ["rejected"]) false
      ⟨true, some ⟨none, some [("type", JSON.str "object")]⟩, none⟩
      ⟨"old", TFValue.vstr "\x7b\"a\":1\x7d", [("k", "v")], "", false⟩).2.1.id = "x" ∧
    "x" ≠ "" :=
  ⟨rfl, rfl, by decide⟩

/-- C6 as amended: after a successful remote `delete` invocation the id
is cleared only when the reply's extracted id is empty; a non-empty
extracted id is instead persisted together with the reply's result and
store.  In both cases the reply is never validated against the response
schema (the validator and the cached response schema are arbitrary and
unused).  If the remote call itself failed, the record is unchanged and
the failure is surfaced. -/
theorem resourceRemoteDelete_spec (tr : Transport) (gjs : Validator)
    (planning : Bool) (cst : ClientState) (d : ResourceRecord) (args : Obj)
    (sp : SchemaResp)
    (hdone : cst.done = true) (hs : cst.schemas = some sp) (he : cst.schemaErr = none)
    (hreq : sp.request = none)
    (hargs : parseArgsJSON d.args = Except.ok args) :
    (∀ res, invokeLambda tr
        { action := "delete", args := args, state := getPreviousArgs d,
          store := decodeStoreAttr d.store, planning := planning } = Except.ok res →
      res.id = "" →
      resourceRemoteDelete tr gjs planning cst d =
        (none, { d with id := "" }, cst,
          [{ action := "delete", args := args, state := getPreviousArgs d,
             store := decodeStoreAttr d.store, planning := planning }])) ∧
    (∀ res, invokeLambda tr
        { action := "delete", args := args, state := getPreviousArgs d,
          store := decodeStoreAttr d.store, planning := planning } = Except.ok res →
      res.id ≠ "" →
      resourceRemoteDelete tr gjs planning cst d =
        (none, { d with id := res.id, result := mapStringValues res.result,
                        store := setStoreAsJSONString res.store }, cst,
          [{ action := "delete", args := args, state := getPreviousArgs d,
             store := decodeStoreAttr d.store, planning := planning }])) ∧
    (∀ e, invokeLambda tr
        { action := "delete", args := args, state := getPreviousArgs d,
          store := decodeStoreAttr d.store, planning := planning } = Except.error e →
      resourceRemoteDelete tr gjs planning cst d = (some e, d, cst,
        [{ action := "delete", args := args, state := getPreviousArgs d,
           store := decodeStoreAttr d.store, planning := planning }])) := by
  refine ⟨?_, ?_, ?_⟩
  · intro res hinv hid
    simp [resourceRemoteDelete, hargs, getSchemas_done_eq tr cst hdone, hs, he,
      validateWithSchema, hreq, hinv, hid]
  · intro res hinv hid
    simp [resourceRemoteDelete, hargs, getSchemas_done_eq tr cst hdone, hs, he,
      validateWithSchema, hreq, hinv, hid]
  · intro e hinv
    simp [resourceRemoteDelete, hargs, getSchemas_done_eq tr cst hdone, hs, he,
      validateWithSchema, hreq, hinv]

/-- Witness for C6: the amended non-empty-id leg at a concrete input —
an always-rejecting validator and a non-empty cached response schema do
not affect the successful delete, demonstrating that the reply is not
validated. -/
theorem resourceRemoteDelete_spec_witness :
    resourceRemoteDelete (fun _ => Except.ok (none, "\x7b\"result\":\x7b\"id\":\"x\"\x7d\x7d"))
      (fun _ _ => ["rejected"]) false
      ⟨true, some ⟨none, some [("type", JSON.str "object")]⟩, none⟩
      ⟨"old", TFValue.vstr "\x7b\"a\":1\x7d", [("k", "v")], "", false⟩ =
    (none,
      { id := "x", args := TFValue.vstr "\x7b\"a\":1\x7d", result := [("id", "x")],
        store := "", isNew := false },
      ⟨true, some ⟨none, some [("type", JSON.str "object")]⟩, none⟩,
      [{ action := "delete", args := [("a", JSON.num "1")], state := [("a", JSON.num "1")],
         store := [], planning := false }]) :=
  (resourceRemoteDelete_spec
    (fun _ => Except.ok (none, "\x7b\"result\":\x7b\"id\":\"x\"\x7d\x7d"))
    (fun _ _ => ["rejected"]) false
    ⟨true, some ⟨none, some [("type", JSON.str "object")]⟩, none⟩
    ⟨"old", TFValue.vstr "\x7b\"a\":1\x7d", [("k", "v")], "", false⟩
    [("a", JSON.num "1")] ⟨none, some [("type", JSON.str "object")]⟩
    rfl rfl rfl rfl rfl).2.1
    (buildResponse [("result", JSON.obj [("id", JSON.str "x")])]) rfl (by decide)

/-- C7 counterexample: a successful `read` whose reply has an empty
extracted id returns success and clears the id, but the persisted
`result` and `store` attributes are left exactly as they were — they are
not cleared by the operation, refuting the claim that read clears id,
result and store. -/
theorem resourceRemoteRead_result_store_kept_counterexample :
    resourceRemoteRead (fun _ => Except.ok (none, "\x7b\"result\":\x7b\x7d\x7d"))
      (fun _ _ => ["rejected"]) false
      ⟨true, some ⟨none, some [("type", JSON.str "object")]⟩, none⟩
      ⟨"old", TFValue.vstr "\x7b\"a\":1\x7d", [("k", "v")], "\x7b\"s\":1\x7d", false⟩ =
    (none,
      { id := "", args := TFValue.vstr "\x7b\"a\":1\x7d", result := [("k", "v")],
        store := "\x7b\"s\":1\x7d", isNew := false },
      ⟨true, some ⟨none, some [("type", JSON.str "object")]⟩, none⟩,
      [{ action := "read", args := [("a", JSON.num "1")], state := [("a", JSON.num "1")],
         store := [("s", JSON.num "1")], planning := false }]) ∧
    ([("k", "v")] : List (String × String)) ≠ [] ∧ "\x7b\"s\":1\x7d" ≠ "" :=
  ⟨rfl, by simp, by decide⟩

/-- C7 as amended: a `read` whose remote invocation succeeds with an
empty extracted id returns success (not an error) and clears the
persisted id — the deletion signal for the host engine — while the
`result` and `store` attributes themselves are left unmodified by the
provider code; no response-schema validation is performed for that reply
(validator and cached response schema are arbitrary and unused). -/
theorem resourceRemoteRead_empty_id_spec (tr : Transport) (gjs : Validator)
    (planning : Bool) (cst : ClientState) (d : ResourceRecord) (args : Obj)
    (sp : SchemaResp) (res : LambdaResponse)
    (hdone : cst.done = true) (hs : cst.schemas = some sp) (he : cst.schemaErr = none)
    (hreq : sp.request = none)
    (hargs : parseArgsJSON d.args = Except.ok args)
    (hinv : invokeLambda tr
      { action := "read", args := args, state := getPreviousArgs d,
        store := decodeStoreAttr d.store, planning := planning } = Except.ok res)
    (hid : res.id = "") :
    resourceRemoteRead tr gjs planning cst d =
      (none, { d with id := "" }, cst,
        [{ action := "read", args := args, state := getPreviousArgs d,
           store := decodeStoreAttr d.store, planning := planning }]) := by
  simp [resourceRemoteRead, hargs, getSchemas_done_eq tr cst hdone, hs, he,
    validateWithSchema, hreq, hinv, hid]

/-- Witness for C7: the amended statement at the counterexample's
concrete input. -/
theorem resourceRemoteRead_empty_id_spec_witness :
    resourceRemoteRead (fun _ => Except.ok (none, "\x7b\"result\":\x7b\x7d\x7d"))
      (fun _ _ => ["rejected"]) true
      ⟨true, some ⟨none, some [("type", JSON.str "object")]⟩, none⟩
      ⟨"old", TFValue.vstr "\x7b\"b\":2\x7d", [("k", "v")], "", false⟩ =
    (none,
      { id := "", args := TFValue.vstr "\x7b\"b\":2\x7d", result := [("k", "v")],
        store := "", isNew := false },
      ⟨true, some ⟨none, some [("type", JSON.str "object")]⟩, none⟩,
      [{ action := "read", args := [("b", JSON.num "2")], state := [("b", JSON.num "2")],
         store := [], planning := true }]) :=
  resourceRemoteRead_empty_id_spec
    (fun _ => Except.ok (none, "\x7b\"result\":\x7b\x7d\x7d"))
    (fun _ _ => ["rejected"]) true
    ⟨true, some ⟨none, some [("type", JSON.str "object")]⟩, none⟩
    ⟨"old", TFValue.vstr "\x7b\"b\":2\x7d", [("k", "v")], "", false⟩
    [("b", JSON.num "2")] ⟨none, some [("type", JSON.str "object")]⟩
    (buildResponse [("result", JSON.obj [])])
    rfl rfl rfl rfl rfl rfl rfl

/-- C2: with the `args` attribute in its schema-declared `TypeList` form,
the prior value delivered by `GetChange` is a list, the `string` type
assertion on it fails, and the diff check classifies the change as a
create: no `diff` invocation reaches the transport (which here would
error if consulted) and no replacement is forced — even though prior
arguments exist and are non-trivial.  This contradicts the claim (and the
code's own skip-on-create log message) that the remote function decides
replacement whenever a prior state exists. -/
theorem customizeDiff_never_invokes_for_list_old :
    customizeDiff (fun _ => Except.error "transport must not be consulted")
      (TFValue.vlist [TFValue.vstr "\x7b\"b\":2\x7d"]) ""
      (TFValue.vlist [TFValue.vstr "\x7b\"a\":1\x7d"]) = (Except.ok false, []) ∧
    parseArgsJSON (TFValue.vlist [TFValue.vstr "\x7b\"a\":1\x7d"]) =
      Except.ok [("a", JSON.num "1")] ∧
    ([("a", JSON.num "1")] : Obj) ≠ [] := by
  refine ⟨?_, ?_, by simp⟩
  · have h : parseTop "\x7b\"b\":2\x7d" = some (JSON.obj [("b", JSON.num "2")]) := rfl
    simp [customizeDiff, parseArgsJSON, h, deepMerge, lookupJ, setKey]
  · have h : parseTop "\x7b\"a\":1\x7d" = some (JSON.obj [("a", JSON.num "1")]) := rfl
    simp [parseArgsJSON, h, deepMerge, lookupJ, setKey]

/-- C3: with the `args` attribute in its schema-declared `TypeList` form,
`getPreviousArgs` type-asserts a string, fails, and returns the empty
object, so the `read` request envelope carries `state = {}` even though
the persisted prior arguments parse to a non-trivial object.  This
contradicts the claim (and the helper's own purpose) that the envelope's
`state` carries the recovered previous arguments. -/
theorem read_state_empty_for_list_args :
    (resourceRemoteRead (fun _ => Except.ok (none, "\x7b\"result\":\x7b\"id\":\"abc\"\x7d\x7d"))
      (fun _ _ => []) false ⟨true, some ⟨none, none⟩, none⟩
      ⟨"abc", TFValue.vlist [TFValue.vstr "\x7b\"a\":1\x7d"], [], "", false⟩).2.2.2 =
      [{ action := "read", args := [("a", JSON.num "1")], state := [], store := [],
         planning := false }] ∧
    getPreviousArgs ⟨"abc", TFValue.vlist [TFValue.vstr "\x7b\"a\":1\x7d"], [], "", false⟩ = [] ∧
    parseArgsJSON (TFValue.vlist [TFValue.vstr "\x7b\"a\":1\x7d"]) =
      Except.ok [("a", JSON.num "1")] ∧
    ([("a", JSON.num "1")] : Obj) ≠ [] := by
  have h : parseTop "\x7b\"a\":1\x7d" = some (JSON.obj [("a", JSON.num "1")]) := rfl
  refine ⟨?_, rfl, ?_, by simp⟩
  · have h2 : invokeLambda
        (fun _ => Except.ok (none, "\x7b\"result\":\x7b\"id\":\"abc\"\x7d\x7d"))
        { action := "read", args := [("a", JSON.num "1")], state := [], store := [],
          planning := false } =
        Except.ok (buildResponse [("result", JSON.obj [("id", JSON.str "abc")])]) := rfl
    simp [resourceRemoteRead, parseArgsJSON, h, deepMerge, lookupJ, setKey,
      getPreviousArgs, decodeStoreAttr, getSchemas_done_eq, validateWithSchema, h2,
      buildResponse, extractId, extractResult]
  · simp [parseArgsJSON, h, deepMerge, lookupJ, setKey]

theorem parseStringBody_rt (s rest : List Char) :
    parseStringBody (escapeStr s ++ quoteC :: rest) = some (s, rest) := by
  induction s with
  | nil =>
    rw [show escapeStr [] ++ quoteC :: rest = quoteC :: rest from rfl, parseStringBody.eq_def]
    simp
  | cons c cs ih =>
    by_cases h1 : c = quoteC ∨ c = backC
    · have hbq : (backC = quoteC) = False := by decide
      rw [show escapeStr (c :: cs) = escapeChar c ++ escapeStr cs from rfl,
        show escapeChar c = [backC, c] from by simp [escapeChar, h1]]
      rw [show ([backC, c] ++ escapeStr cs ++ quoteC :: rest : List Char) =
        backC :: (c :: (escapeStr cs ++ quoteC :: rest)) from by simp, parseStringBody.eq_def]
      simp [hbq, ih]
    · push_neg at h1
      rw [show escapeStr (c :: cs) = escapeChar c ++ escapeStr cs from rfl,
        show escapeChar c = [c] from by simp [escapeChar, h1.1, h1.2]]
      rw [show [c] ++ escapeStr cs ++ quoteC :: rest =
        c :: (escapeStr cs ++ quoteC :: rest) from by simp, parseStringBody.eq_def]
      simp [h1.1, h1.2, ih]

theorem takeWhile_all_append (p : Char → Bool) (xs ys : List Char)
    (hall : ∀ c ∈ xs, p c = true)
    (hstop : ys = [] ∨ p (ys.headD ' ') = false) :
    (xs ++ ys).takeWhile p = xs ∧ (xs ++ ys).dropWhile p = ys := by
  induction xs with
  | nil =>
    rcases hstop with h | h
    · simp [h]
    · cases ys with
      | nil => simp
      | cons y ys =>
        simp only [List.headD_cons] at h
        simp [List.takeWhile, List.dropWhile, h]
  | cons x xs ih =>
    have hx : p x = true := hall x (List.mem_cons_self x xs)
    have ih2 := ih (fun c hc => hall c (List.mem_cons_of_mem x hc))
    simp [List.takeWhile, List.dropWhile, hx, ih2.1, ih2.2]

mutual
/-- Fuel needed by `parseVal` to parse the serialization of a value. -/
def needV : JSON → Nat
  | JSON.null => 1
  | JSON.bool _ => 1
  | JSON.num _ => 1
  | JSON.str _ => 1
  | JSON.arr [] => 1
  | JSON.arr (v :: rest) => 1 + needE (v :: rest)
  | JSON.obj [] => 1
  | JSON.obj (f :: rest) => 1 + needF (f :: rest)

/-- Fuel needed by `parseElems`. -/
def needE : List JSON → Nat
  | [] => 0
  | v :: rest => 1 + max (needV v) (needE rest)

/-- Fuel needed by `parseFields`. -/
def needF : List (String × JSON) → Nat
  | [] => 0
  | (_, v) :: rest => 1 + max (needV v) (needF rest)
end

theorem needV_pos (v : JSON) : 1 ≤ needV v := by
  cases v with
  | arr l => cases l <;> simp [needV]
  | obj l => cases l <;> simp [needV]
  | null => simp [needV]
  | bool b => simp [needV]
  | num s => simp [needV]
  | str s => simp [needV]

theorem needE_pos (v : JSON) (rest : List JSON) : 1 ≤ needE (v :: rest) := by
  simp [needE]

theorem needF_pos (f : String × JSON) (rest : List (String × JSON)) :
    1 ≤ needF (f :: rest) := by
  obtain ⟨k, v⟩ := f
  simp [needF]

theorem printFields_head (fs : List (String × JSON)) (h : fs ≠ []) :
    ∃ t, printFields fs = quoteC :: t := by
  cases fs with
  | nil => exact absurd rfl h
  | cons f rest =>
    obtain ⟨k, v⟩ := f
    cases rest with
    | nil => exact ⟨escapeStr k.data ++ [quoteC, ':'] ++ printJ v, by simp [printFields]⟩
    | cons f2 rest2 =>
      exact ⟨escapeStr k.data ++ [quoteC, ':'] ++ printJ v ++ ',' :: printFields (f2 :: rest2),
        by simp [printFields]⟩

theorem numstart_not_bracket (c : Char) (h : (c.isDigit || c = '-') = true) :
    (c = ']') = False ∧ (c = rbraceC) = False ∧ (c = quoteC) = False ∧
    (c = lbraceC) = False ∧ (c = '[') = False := by
  refine ⟨eq_false ?_, eq_false ?_, eq_false ?_, eq_false ?_, eq_false ?_⟩ <;>
    (intro he; rw [he] at h; exact absurd h (by decide))

theorem printJ_head (v : JSON) (h : wfJ v = true) :
    ∃ d t, printJ v = d :: t ∧ (d = ']') = False ∧ (d = rbraceC) = False := by
  cases v with
  | null => exact ⟨'n', ['u', 'l', 'l'], by simp [printJ], by decide, by decide⟩
  | bool b =>
    cases b with
    | true => exact ⟨'t', ['r', 'u', 'e'], by simp [printJ], by decide, by decide⟩
    | false => exact ⟨'f', ['a', 'l', 's', 'e'], by simp [printJ], by decide, by decide⟩
  | num s =>
    rw [wfJ] at h
    rcases hd : s.data with _ | ⟨c, cs⟩
    · rw [hd] at h; simp at h
    · rw [hd] at h
      simp only [Bool.and_eq_true] at h
      have hb := numstart_not_bracket c h.1
      exact ⟨c, cs, by simp [printJ, hd], hb.1, hb.2.1⟩
  | str s => exact ⟨quoteC, escapeStr s.data ++ [quoteC], by simp [printJ], by decide, by decide⟩
  | arr l => exact ⟨'[', printElems l ++ [']'], by simp [printJ], by decide, by decide⟩
  | obj l =>
    exact ⟨lbraceC, printFields l ++ [rbraceC], by simp [printJ], by decide, by decide⟩

theorem parseVal_succ_cons (n : Nat) (c : Char) (rest : List Char) :
    parseVal (n + 1) (c :: rest) =
      (if c.isDigit || c = '-' then
        match (c :: rest).takeWhile isNumChar with
        | [] => none
        | ds => some (JSON.num (String.mk ds), (c :: rest).dropWhile isNumChar)
      else if c = quoteC then
        match parseStringBody rest with
        | some (s, r) => some (JSON.str (String.mk s), r)
        | none => none
      else if c = lbraceC then
        match rest with
        | d :: r2 =>
          if d = rbraceC then some (JSON.obj [], r2)
          else
            match parseFields n rest with
            | some (fs, r3) => some (JSON.obj fs, r3)
            | none => none
        | [] => none
      else if c = '[' then
        match rest with
        | d :: r2 =>
          if d = ']' then some (JSON.arr [], r2)
          else
            match parseElems n rest with
            | some (es, r3) => some (JSON.arr es, r3)
            | none => none
        | [] => none
      else if c = 'n' then
        match rest with
        | c1 :: c2 :: c3 :: r =>
          if c1 = 'u' ∧ c2 = 'l' ∧ c3 = 'l' then some (JSON.null, r) else none
        | _ => none
      else if c = 't' then
        match rest with
        | c1 :: c2 :: c3 :: r =>
          if c1 = 'r' ∧ c2 = 'u' ∧ c3 = 'e' then some (JSON.bool true, r) else none
        | _ => none
      else if c = 'f' then
        match rest with
        | c1 :: c2 :: c3 :: c4 :: r =>
          if c1 = 'a' ∧ c2 = 'l' ∧ c3 = 's' ∧ c4 = 'e' then some (JSON.bool false, r) else none
        | _ => none
      else none) := rfl

theorem parseFields_succ_cons (n : Nat) (c : Char) (rest : List Char) :
    parseFields (n + 1) (c :: rest) =
      (if c = quoteC then
        match parseStringBody rest with
        | some (k, r2) =>
          match r2 with
          | d2 :: r3 =>
            if d2 = ':' then
              match parseVal n r3 with
              | some (v, r4) =>
                match r4 with
                | d :: r5 =>
                  if d = ',' then
                    match parseFields n r5 with
                    | some (fs, r6) => some ((String.mk k, v) :: fs, r6)
                    | none => none
                  else if d = rbraceC then some ([(String.mk k, v)], r5)
                  else none
                | [] => none
              | none => none
            else none
          | [] => none
        | none => none
      else none) := rfl

theorem parseElems_succ (n : Nat) (cs : List Char) :
    parseElems (n + 1) cs =
      (match parseVal n cs with
      | some (v, r) =>
        match r with
        | d :: r2 =>
          if d = ',' then
            match parseElems n r2 with
            | some (es, r3) => some (v :: es, r3)
            | none => none
          else if d = ']' then some ([v], r2)
          else none
        | [] => none
      | none => none) := rfl


theorem stringMk_data (s : String) : String.mk s.data = s := rfl

theorem printElems_head (v : JSON) (es : List JSON) (h : wfJ v = true) :
    ∃ d t2, printElems (v :: es) = d :: t2 ∧ (d = ']') = False ∧ (d = rbraceC) = False := by
  obtain ⟨d, t, hpd, h1, h2⟩ := printJ_head v h
  cases es with
  | nil => exact ⟨d, t, by simp [printElems, hpd], h1, h2⟩
  | cons v2 es2 =>
    exact ⟨d, t ++ ',' :: printElems (v2 :: es2), by simp [printElems, hpd], h1, h2⟩

theorem parse_print_ok : ∀ fuel : Nat,
    (∀ (v : JSON) (rest : List Char), needV v ≤ fuel → wfJ v = true →
      (rest = [] ∨ isNumChar (rest.headD ' ') = false) →
      parseVal fuel (printJ v ++ rest) = some (v, rest)) ∧
    (∀ (fs : List (String × JSON)) (rest : List Char), fs ≠ [] → needF fs ≤ fuel →
      wfF fs = true →
      parseFields fuel (printFields fs ++ rbraceC :: rest) = some (fs, rest)) ∧
    (∀ (es : List JSON) (rest : List Char), es ≠ [] → needE es ≤ fuel → wfE es = true →
      parseElems fuel (printElems es ++ ']' :: rest) = some (es, rest)) := by
  intro fuel
  induction fuel with
  | zero =>
    refine ⟨?_, ?_, ?_⟩
    · intro v rest hn _ _
      exact absurd hn (by have := needV_pos v; omega)
    · intro fs rest hne hn _
      cases fs with
      | nil => exact absurd rfl hne
      | cons f fs2 => exact absurd hn (by have := needF_pos f fs2; omega)
    · intro es rest hne hn _
      cases es with
      | nil => exact absurd rfl hne
      | cons v es2 => exact absurd hn (by have := needE_pos v es2; omega)
  | succ n ih =>
    obtain ⟨ihV, ihF, ihE⟩ := ih
    refine ⟨?_, ?_, ?_⟩
    · intro v rest hn hwf hdelim
      cases v with
      | null => exact rfl
      | bool b => cases b <;> exact rfl
      | num s =>
        rcases hd : s.data with _ | ⟨c, cs⟩
        · rw [wfJ, hd] at hwf; simp at hwf
        · rw [wfJ, hd] at hwf
          simp only [Bool.and_eq_true] at hwf
          obtain ⟨hstart, hall⟩ := hwf
          rw [show printJ (JSON.num s) = s.data from rfl, hd,
            show (c :: cs) ++ rest = c :: (cs ++ rest) from rfl,
            parseVal_succ_cons, if_pos hstart]
          have htake := takeWhile_all_append isNumChar (c :: cs) rest
            (fun x hx => List.all_eq_true.mp hall x hx) hdelim
          rw [show (c :: (cs ++ rest)) = (c :: cs) ++ rest from rfl, htake.1, htake.2]
          show some (JSON.num (String.mk (c :: cs)), rest) = some (JSON.num s, rest)
          rw [← hd]
      | str s =>
        rw [show printJ (JSON.str s) ++ rest =
          quoteC :: (escapeStr s.data ++ quoteC :: rest) from by simp [printJ],
          parseVal_succ_cons, if_neg (by decide), if_pos rfl, parseStringBody_rt]
      | obj l =>
        cases l with
        | nil => exact rfl
        | cons f fs =>
          have hwfF : wfF (f :: fs) = true := by rw [wfJ] at hwf; exact hwf
          have hnF : needF (f :: fs) ≤ n := by
            have h1 : needV (JSON.obj (f :: fs)) = 1 + needF (f :: fs) := by simp [needV]
            omega
          obtain ⟨t, hpf⟩ := printFields_head (f :: fs) (by simp)
          have hihF := ihF (f :: fs) rest (by simp) hnF hwfF
          rw [show printJ (JSON.obj (f :: fs)) ++ rest =
            lbraceC :: (printFields (f :: fs) ++ rbraceC :: rest) from by simp [printJ],
            parseVal_succ_cons, if_neg (by decide), if_neg (by decide), if_pos rfl]
          simp only [hihF]
          simp only [hpf, List.cons_append]
          simp [show (quoteC = rbraceC) = False from by decide]
      | arr l =>
        cases l with
        | nil => exact rfl
        | cons v es =>
          have hwfE : wfE (v :: es) = true := by rw [wfJ] at hwf; exact hwf
          have hwfV : wfJ v = true := by
            have : wfE (v :: es) = (wfJ v && wfE es) := by simp [wfE]
            rw [this, Bool.and_eq_true] at hwfE
            exact hwfE.1
          have hwfE2 : wfE (v :: es) = true := by rw [wfJ] at hwf; exact hwf
          have hnE : needE (v :: es) ≤ n := by
            have h1 : needV (JSON.arr (v :: es)) = 1 + needE (v :: es) := by simp [needV]
            omega
          obtain ⟨d, t2, hpe, hd1, hd2⟩ := printElems_head v es hwfV
          have hihE := ihE (v :: es) rest (by simp) hnE hwfE2
          rw [show printJ (JSON.arr (v :: es)) ++ rest =
            '[' :: (printElems (v :: es) ++ ']' :: rest) from by simp [printJ],
            parseVal_succ_cons, if_neg (by decide), if_neg (by decide), if_neg (by decide),
            if_pos rfl]
          simp only [hihE]
          simp only [hpe, List.cons_append]
          simp [hd1]
    · intro fs rest hne hn hwf
      cases fs with
      | nil => exact absurd rfl hne
      | cons f fs2 =>
        obtain ⟨k, v⟩ := f
        have hparts : wfJ v = true ∧ wfF fs2 = true := by
          have h1 : wfF ((k, v) :: fs2) = (wfJ v && wfF fs2) := by simp [wfF]
          rw [h1, Bool.and_eq_true] at hwf
          exact hwf
        have hmax : max (needV v) (needF fs2) ≤ n := by
          have h1 : needF ((k, v) :: fs2) = 1 + max (needV v) (needF fs2) := by simp [needF]
          omega
        have hnV : needV v ≤ n := le_trans (Nat.le_max_left _ _) hmax
        have hnF2 : needF fs2 ≤ n := le_trans (Nat.le_max_right _ _) hmax
        cases fs2 with
        | nil =>
          have hv := ihV v (rbraceC :: rest) hnV hparts.1 (Or.inr (by rw [List.headD_cons]; decide))
          rw [show printFields [(k, v)] ++ rbraceC :: rest =
            quoteC :: (escapeStr k.data ++ quoteC :: (':' :: (printJ v ++ rbraceC :: rest)))
            from by simp [printFields], parseFields_succ_cons, if_pos rfl, parseStringBody_rt]
          simp [hv, stringMk_data, show (rbraceC = ',') = False from by decide]
        | cons f2 fs3 =>
          have hv := ihV v (',' :: (printFields (f2 :: fs3) ++ rbraceC :: rest)) hnV hparts.1
            (Or.inr (by rw [List.headD_cons]; decide))
          have hfs := ihF (f2 :: fs3) rest (by simp) hnF2 hparts.2
          rw [show printFields ((k, v) :: f2 :: fs3) ++ rbraceC :: rest =
            quoteC :: (escapeStr k.data ++ quoteC :: (':' :: (printJ v ++
              ',' :: (printFields (f2 :: fs3) ++ rbraceC :: rest)))) from by simp [printFields],
            parseFields_succ_cons, if_pos rfl, parseStringBody_rt]
          simp [hv, hfs, stringMk_data, show (rbraceC = ',') = False from by decide]
    · intro es rest hne hn hwf
      cases es with
      | nil => exact absurd rfl hne
      | cons v es2 =>
        have hparts : wfJ v = true ∧ wfE es2 = true := by
          have h1 : wfE (v :: es2) = (wfJ v && wfE es2) := by simp [wfE]
          rw [h1, Bool.and_eq_true] at hwf
          exact hwf
        have hmax : max (needV v) (needE es2) ≤ n := by
          have h1 : needE (v :: es2) = 1 + max (needV v) (needE es2) := by simp [needE]
          omega
        have hnV : needV v ≤ n := le_trans (Nat.le_max_left _ _) hmax
        have hnE2 : needE es2 ≤ n := le_trans (Nat.le_max_right _ _) hmax
        cases es2 with
        | nil =>
          have hv := ihV v (']' :: rest) hnV hparts.1 (Or.inr (by rw [List.headD_cons]; decide))
          rw [show printElems [v] ++ ']' :: rest = printJ v ++ ']' :: rest from
            by simp [printElems], parseElems_succ]
          simp [hv, show (']' = ',') = False from by decide]
        | cons v2 es3 =>
          have hv := ihV v (',' :: (printElems (v2 :: es3) ++ ']' :: rest)) hnV hparts.1
            (Or.inr (by rw [List.headD_cons]; decide))
          have hes := ihE (v2 :: es3) rest (by simp) hnE2 hparts.2
          rw [show printElems (v :: v2 :: es3) ++ ']' :: rest =
            printJ v ++ (',' :: (printElems (v2 :: es3) ++ ']' :: rest)) from
            by simp [printElems], parseElems_succ]
          simp [hv, hes]


theorem sizeOf_pos_json (v : JSON) : 1 ≤ sizeOf v := by
  cases v <;> simp

theorem need_le_print : ∀ N : Nat,
    (∀ v : JSON, sizeOf v ≤ N → needV v ≤ (printJ v).length + 1) ∧
    (∀ fs : List (String × JSON), sizeOf fs ≤ N → needF fs ≤ (printFields fs).length + 2) ∧
    (∀ es : List JSON, sizeOf es ≤ N → needE es ≤ (printElems es).length + 2) := by
  intro N
  induction N with
  | zero =>
    refine ⟨?_, ?_, ?_⟩
    · intro v hs
      exact absurd hs (by have := sizeOf_pos_json v; omega)
    · intro fs hs
      exact absurd hs (by cases fs <;> simp)
    · intro es hs
      exact absurd hs (by cases es <;> simp)
  | succ M ih =>
    obtain ⟨ihV, ihF, ihE⟩ := ih
    refine ⟨?_, ?_, ?_⟩
    · intro v hs
      cases v with
      | null => simp [needV, printJ]
      | bool b => cases b <;> simp [needV, printJ]
      | num s => simp [needV, printJ]
      | str s => simp [needV, printJ]
      | arr l =>
        cases l with
        | nil => simp [needV, printJ, printElems]
        | cons v es =>
          have h1 : sizeOf (v :: es) ≤ M := by
            have : sizeOf (JSON.arr (v :: es)) = 1 + sizeOf (v :: es) := by simp
            omega
          have h2 := ihE (v :: es) h1
          have h3 : (printJ (JSON.arr (v :: es))).length =
              (printElems (v :: es)).length + 2 := by
            simp [printJ]
          have h4 : needV (JSON.arr (v :: es)) = 1 + needE (v :: es) := by simp [needV]
          omega
      | obj l =>
        cases l with
        | nil => simp [needV, printJ, printFields]
        | cons f fs =>
          have h1 : sizeOf (f :: fs) ≤ M := by
            have : sizeOf (JSON.obj (f :: fs)) = 1 + sizeOf (f :: fs) := by simp
            omega
          have h2 := ihF (f :: fs) h1
          have h3 : (printJ (JSON.obj (f :: fs))).length =
              (printFields (f :: fs)).length + 2 := by
            simp [printJ]
          have h4 : needV (JSON.obj (f :: fs)) = 1 + needF (f :: fs) := by simp [needV]
          omega
    · intro fs hs
      cases fs with
      | nil => simp [needF]
      | cons f fs2 =>
        obtain ⟨k, v⟩ := f
        have hv : sizeOf v ≤ M := by simp at hs; omega
        have hfs2 : sizeOf fs2 ≤ M := by simp at hs; omega
        have h2 := ihV v hv
        have h3 := ihF fs2 hfs2
        have h4 : needF ((k, v) :: fs2) = 1 + max (needV v) (needF fs2) := by simp [needF]
        cases fs2 with
        | nil =>
          have h5 : (printFields [(k, v)]).length =
              (escapeStr k.data).length + 3 + (printJ v).length := by
            simp [printFields]
            omega
          have h6 : needF ([] : List (String × JSON)) = 0 := by simp [needF]
          omega
        | cons f2 fs3 =>
          have h5 : (printFields ((k, v) :: f2 :: fs3)).length =
              (escapeStr k.data).length + 4 + (printJ v).length +
                (printFields (f2 :: fs3)).length := by
            simp [printFields]
            omega
          omega
    · intro es hs
      cases es with
      | nil => simp [needE]
      | cons v es2 =>
        have hv : sizeOf v ≤ M := by simp at hs; omega
        have hes2 : sizeOf es2 ≤ M := by simp at hs; omega
        have h2 := ihV v hv
        have h3 := ihE es2 hes2
        have h4 : needE (v :: es2) = 1 + max (needV v) (needE es2) := by simp [needE]
        cases es2 with
        | nil =>
          have h5 : (printElems [v]).length = (printJ v).length := by simp [printElems]
          have h6 : needE ([] : List JSON) = 0 := by simp [needE]
          omega
        | cons v2 es3 =>
          have h5 : (printElems (v :: v2 :: es3)).length =
              (printJ v).length + 1 + (printElems (v2 :: es3)).length := by
            simp [printElems]
            omega
          omega


theorem decode_encode_store (m : Obj) (h : wfJ (JSON.obj m) = true) :
    decodeStoreAttr (setStoreAsJSONString (some m)) = m := by
  have hlen : needV (JSON.obj m) ≤ (printJ (JSON.obj m)).length + 1 :=
    (need_le_print (sizeOf (JSON.obj m))).1 _ le_rfl
  have hrt := (parse_print_ok ((printJ (JSON.obj m)).length + 1)).1 (JSON.obj m) []
    hlen h (Or.inl rfl)
  rw [List.append_nil] at hrt
  have hpt : parseTop (String.mk (printJ (JSON.obj m))) = some (JSON.obj m) := by
    show (match parseVal ((printJ (JSON.obj m)).length + 1) (printJ (JSON.obj m)) with
          | some (v, []) => some v
          | _ => none) = some (JSON.obj m)
    rw [hrt]
  have hne : (String.mk (printJ (JSON.obj m)) = "") = False := by
    apply eq_false
    intro hh
    have hd := congrArg String.data hh
    rw [show (String.mk (printJ (JSON.obj m))).data = printJ (JSON.obj m) from rfl,
      show ("" : String).data = [] from rfl,
      show printJ (JSON.obj m) = lbraceC :: (printFields m ++ [rbraceC]) from rfl] at hd
    exact List.noConfusion hd
  show decodeStoreAttr (String.mk (printJ (JSON.obj m))) = m
  simp [decodeStoreAttr, hne, hpt]

/-- C9 counterexample: an empty but non-nil store does NOT encode to the
empty string — `setStoreAsJSONString` marshals it to `"\x7b\x7d"` — only
a nil store yields the empty string, refuting the claim that an empty or
nil store encodes to the empty string. -/
theorem setStore_empty_obj_counterexample :
    setStoreAsJSONString (some []) = String.mk [lbraceC, rbraceC] ∧
    String.mk [lbraceC, rbraceC] ≠ "" ∧
    setStoreAsJSONString none = "" :=
  ⟨rfl, by decide, rfl⟩

/-- C9 as amended: the Store Codec round-trips —
`decode(encode(store)) = store` for every serializable store; a nil store
encodes to the empty string, which decodes back to an empty object; an
empty non-nil store encodes to `"\x7b\x7d"` (not the empty string), which
also decodes back to the empty object; and a string that does not decode
as a JSON object yields an empty object rather than an error. -/
theorem store_codec_roundtrip :
    (∀ m : Obj, wfJ (JSON.obj m) = true →
      decodeStoreAttr (setStoreAsJSONString (some m)) = m) ∧
    setStoreAsJSONString none = "" ∧
    decodeStoreAttr "" = [] ∧
    decodeStoreAttr (setStoreAsJSONString (some [])) = [] ∧
    (∀ s : String, (∀ m : Obj, parseTop s ≠ some (JSON.obj m)) →
      decodeStoreAttr s = []) := by
  refine ⟨fun m h => decode_encode_store m h, rfl, rfl, rfl, ?_⟩
  intro s hnp
  by_cases hse : s = ""
  · simp [decodeStoreAttr, hse]
  · simp only [decodeStoreAttr, if_neg hse]

/-- Witness for C9: the round-trip at a concrete two-field store, and the
decode-failure default at a concrete non-JSON string. -/
theorem store_codec_roundtrip_witness :
    (wfJ (JSON.obj [("a", JSON.num "1"), ("s", JSON.str "x")]) = true ∧
      decodeStoreAttr (setStoreAsJSONString
        (some [("a", JSON.num "1"), ("s", JSON.str "x")])) =
        [("a", JSON.num "1"), ("s", JSON.str "x")]) ∧
    decodeStoreAttr "not json" = [] :=
  ⟨⟨by decide, store_codec_roundtrip.1 [("a", JSON.num "1"), ("s", JSON.str "x")] (by decide)⟩,
    store_codec_roundtrip.2.2.2.2 "not json"
      (fun m h => by
        rw [show parseTop "not json" = none from rfl] at h
        exact Option.noConfusion h)⟩
